import Mathlib

/-!
# Mash `sketch` command and pairwise comparison: a verification development

Shallow embedding of `src/Mash/src/mash/CommandSketch.cpp` (both overloads of
`CommandSketch::run`) and of the comparison interface declared in
`src/Mash/src/mash/CommandDistance.h`.

Conventions of the embedding:

* A `double` is a `Dbl`: a finite value (a rational) or one of `+inf`, `-inf`,
  `NaN`. Comparing two doubles is exact and is defined here (`Dbl.lt`). The
  operations that round (`*`, `-`, `/` and the conversion of a `uint64_t` to
  `double`) belong to the platform, not to the source: `run` takes them from
  the `World` (`Arith`), so everything proved about `run` holds for IEEE
  binary64 arithmetic as for any other. `exactArith` is the instance without
  rounding, used where a statement is about exact arithmetic.
* `uint64_t` lengths and the `int` counters are natural numbers: the code only
  compares them and increments a counter once per reference, so no
  wrap-around is reachable short of `INT_MAX` references.
* Calls into code that lives outside the two source files (`Sketch`, option
  parsing, printing) are recorded, in program order, in a trace of `Event`s;
  whatever those calls compute is supplied by a `World`.
-/

namespace Mash

/-! ## Data model -/

/-- A `double`: a finite value or one of the IEEE special values. Signed
zeros are not told apart. -/
inductive Dbl where
  | fin (q : ℚ)
  | pinf
  | ninf
  | nan
  deriving DecidableEq

/-- The comparison `a < b` of two doubles (exact; false when either is `NaN`). -/
def Dbl.lt : Dbl → Dbl → Bool
  | Dbl.fin a, Dbl.fin b => decide (a < b)
  | Dbl.fin _, Dbl.pinf => true
  | Dbl.ninf, Dbl.fin _ => true
  | Dbl.ninf, Dbl.pinf => true
  | _, _ => false

/-- The rounding operations of `double` arithmetic that `run` uses: product,
difference, quotient, and the conversion of a `uint64_t` to `double`. -/
structure Arith where
  mul : Dbl → Dbl → Dbl
  sub : Dbl → Dbl → Dbl
  div : Dbl → Dbl → Dbl
  ofUInt64 : Nat → Dbl

/-- Sign of a finite factor applied to an infinity of the given sign
(`positive = true` for `+inf`); a zero factor gives `NaN`. -/
def Dbl.scaleInf (a : ℚ) (positive : Bool) : Dbl :=
  if 0 < a then (if positive then Dbl.pinf else Dbl.ninf)
  else if a < 0 then (if positive then Dbl.ninf else Dbl.pinf)
  else Dbl.nan

/-- Product without rounding, with the IEEE rules for the special values. -/
def Dbl.exactMul : Dbl → Dbl → Dbl
  | Dbl.fin a, Dbl.fin b => Dbl.fin (a * b)
  | Dbl.nan, _ => Dbl.nan
  | _, Dbl.nan => Dbl.nan
  | Dbl.fin a, Dbl.pinf => Dbl.scaleInf a true
  | Dbl.fin a, Dbl.ninf => Dbl.scaleInf a false
  | Dbl.pinf, Dbl.fin b => Dbl.scaleInf b true
  | Dbl.ninf, Dbl.fin b => Dbl.scaleInf b false
  | Dbl.pinf, Dbl.pinf => Dbl.pinf
  | Dbl.ninf, Dbl.ninf => Dbl.pinf
  | Dbl.pinf, Dbl.ninf => Dbl.ninf
  | Dbl.ninf, Dbl.pinf => Dbl.ninf

/-- Difference without rounding, with the IEEE rules for the special values. -/
def Dbl.exactSub : Dbl → Dbl → Dbl
  | Dbl.fin a, Dbl.fin b => Dbl.fin (a - b)
  | Dbl.nan, _ => Dbl.nan
  | _, Dbl.nan => Dbl.nan
  | Dbl.fin _, Dbl.pinf => Dbl.ninf
  | Dbl.fin _, Dbl.ninf => Dbl.pinf
  | Dbl.pinf, Dbl.fin _ => Dbl.pinf
  | Dbl.ninf, Dbl.fin _ => Dbl.ninf
  | Dbl.pinf, Dbl.ninf => Dbl.pinf
  | Dbl.ninf, Dbl.pinf => Dbl.ninf
  | Dbl.pinf, Dbl.pinf => Dbl.nan
  | Dbl.ninf, Dbl.ninf => Dbl.nan

/-- Quotient without rounding, with the IEEE rules for the special values: a
finite non-zero value over zero is an infinity of its sign, zero over zero is
`NaN`, a finite value over an infinity is zero. -/
def Dbl.exactDiv : Dbl → Dbl → Dbl
  | Dbl.fin a, Dbl.fin b => if b = 0 then Dbl.scaleInf a true else Dbl.fin (a / b)
  | Dbl.nan, _ => Dbl.nan
  | _, Dbl.nan => Dbl.nan
  | Dbl.fin _, Dbl.pinf => Dbl.fin 0
  | Dbl.fin _, Dbl.ninf => Dbl.fin 0
  | Dbl.pinf, Dbl.fin b => if b < 0 then Dbl.ninf else Dbl.pinf
  | Dbl.ninf, Dbl.fin b => if b < 0 then Dbl.pinf else Dbl.ninf
  | Dbl.pinf, Dbl.pinf => Dbl.nan
  | Dbl.pinf, Dbl.ninf => Dbl.nan
  | Dbl.ninf, Dbl.pinf => Dbl.nan
  | Dbl.ninf, Dbl.ninf => Dbl.nan

/-- Arithmetic without rounding: the exact (rational) reading of the `double`
operations. -/
def exactArith : Arith :=
  { mul := Dbl.exactMul
    sub := Dbl.exactSub
    div := Dbl.exactDiv
    ofUInt64 := fun n => Dbl.fin (n : ℚ) }

/-- One `Sketch::Reference`: identity, observed length and sorted min-hashes. -/
structure Reference where
  name : String
  comment : String
  length : Nat
  hashesSorted : List Nat
  deriving DecidableEq

/-- The part of `Sketch` that `CommandSketch::run` observes: the reference
vector and the value returned by `getKmerSpace()`. -/
structure Sketch where
  references : List Reference
  kmerSpace : Dbl
  deriving DecidableEq

/-- The fields of `Sketch::Parameters` that `CommandSketch::run` reads. -/
structure Parameters where
  reads : Bool
  windowed : Bool
  warning : Dbl
  deriving DecidableEq

/-- A command-line option as `run` sees it: `active` and `argument`. -/
structure CmdOption where
  active : Bool
  argument : String
  deriving DecidableEq

/-- The `Command` state read by `run`: the five options registered by the
constructor (`help`, `list`, `prefix`, `id`, `comment`) and the positional
arguments. -/
structure Command where
  help : CmdOption
  list : CmdOption
  prefixOpt : CmdOption
  id : CmdOption
  comment : CmdOption
  arguments : List String
  deriving DecidableEq

/-- An external call made by `run`, in program order. -/
inductive Event where
  | print
  | splitFile (file : String)
  | cerr (msg : String)
  | initFromReads (files : List String)
  | initFromFiles (files : List String) (verbosity : Int)
  | setReferenceName (i : Nat) (name : String)
  | setReferenceComment (i : Nat) (comment : String)
  | writeToCapnp (file : String)
  | warnKmerSize (lengthMax : Nat) (lengthMaxName : String) (randomChance : Dbl)
      (kMin : Int) (warningCount : Nat)
  deriving DecidableEq

/-- Everything `run` obtains from outside `CommandSketch.cpp`: the `double`
arithmetic, the results of the functions it calls, the two suffix constants, and
the indeterminate initial contents of the three scalar locals it declares
without an initialiser. -/
structure World where
  arith : Arith
  sketchParameterSetup : Command → Int × Parameters
  splitFile : String → List String
  initFromReads : List String → Parameters → Sketch
  initFromFiles : List String → Parameters → Int → Sketch
  getRandomKmerChance : Sketch → Nat → Dbl
  getMinKmerSize : Sketch → Nat → Int
  suffixSketch : String
  suffixSketchWindowed : String
  lengthMax0 : Nat
  randomChance0 : Dbl
  kMin0 : Int

/-- What a call of `run` leaves behind: the return value, the sketch object at
the end of the call and the external calls made. -/
structure RunResult where
  ret : Int
  sketch : Sketch
  trace : List Event
  deriving DecidableEq

/-! ## Helpers declared outside the two source files -/

/-- Modelled from the spec: `hasSuffix` is declared in `Command.h`, which is not
among the sources; `run` uses it to decide whether the output name already ends
with the sketch suffix, so it is the test "`whole` is at least as long as
`suffix` and its last `suffix.length` characters are `suffix`". -/
def hasSuffix (whole suffix : String) : Bool :=
  if suffix.length ≤ whole.length then
    decide (whole.data.drop (whole.length - suffix.length) = suffix.data)
  else false

/-- Replace the element at index `i`, if there is one. -/
def modifyAt {α : Type} (f : α → α) : Nat → List α → List α
  | _, [] => []
  | 0, x :: xs => f x :: xs
  | i + 1, x :: xs => x :: modifyAt f i xs

/-- Modelled from the spec: `Sketch::setReferenceName` is declared in `Sketch.h`,
which is not among the sources; it is the explicit rename operation on one
reference, `references[i].name = name`. An index past the end (undefined in
the source) leaves the sketch as it is. -/
def Sketch.setReferenceName (s : Sketch) (i : Nat) (name : String) : Sketch :=
  { s with references := modifyAt (fun r => { r with name := name }) i s.references }

/-- Modelled from the spec: `Sketch::setReferenceComment` is declared in
`Sketch.h`, which is not among the sources; it is the explicit recomment
operation on one reference, `references[i].comment = comment`. -/
def Sketch.setReferenceComment (s : Sketch) (i : Nat) (comment : String) : Sketch :=
  { s with references := modifyAt (fun r => { r with comment := comment }) i s.references }

/-- A default-constructed `Sketch`. -/
def Sketch.empty : Sketch := { references := [], kmerSpace := Dbl.fin 0 }

/-! ## `CommandSketch::run` -/

/-- The locals written by the warning loop. -/
structure WarnState where
  lengthMax : Nat
  lengthMaxName : String
  randomChance : Dbl
  kMin : Int
  warningCount : Nat
  deriving DecidableEq

/-- The file-collecting loop (lines 72-82): with `-l` every argument is
expanded by `splitFile`, otherwise it is appended itself. -/
def collectFiles (w : World) (list : Bool) : List String → List String → List String
  | [], files => files
  | a :: rest, files =>
      collectFiles w list rest (if list then files ++ w.splitFile a else files ++ [a])

/-- `lengthThreshold` (line 111): `(warning * kmerSpace) / (1. - warning)`,
computed with the `double` operations `ar`. -/
def lengthThreshold (ar : Arith) (warning kmerSpace : Dbl) : Dbl :=
  ar.div (ar.mul warning kmerSpace) (ar.sub (Dbl.fin 1) warning)

/-- The test `length > lengthThreshold` (line 117): the `uint64_t` length is
converted to `double` by `ar` and compared with the threshold. -/
def lengthExceeds (ar : Arith) (length : Nat) (threshold : Dbl) : Bool :=
  Dbl.lt threshold (ar.ofUInt64 length)

/-- One iteration of the warning loop (lines 115-128) at index `i`. -/
def warnStep (w : World) (sketch : Sketch) (threshold : Dbl) (st : WarnState) (i : Nat)
    (r : Reference) : WarnState :=
  let length := r.length
  if lengthExceeds w.arith length threshold then
    let st1 : WarnState :=
      if st.warningCount = 0 ∨ st.lengthMax < length then
        { st with
          lengthMax := length
          lengthMaxName := r.name
          randomChance := w.getRandomKmerChance sketch i
          kMin := w.getMinKmerSize sketch i }
      else st
    { st1 with warningCount := st1.warningCount + 1 }
  else st

/-- The warning loop (lines 113-129) over the references from index `i` on. -/
def warnLoop (w : World) (sketch : Sketch) (threshold : Dbl) :
    List Reference → Nat → WarnState → WarnState
  | [], _, st => st
  | r :: rs, i, st => warnLoop w sketch threshold rs (i + 1) (warnStep w sketch threshold st i r)

/-- The locals of the warning loop before the loop (lines 64-68):
`warningCount = 0`, `lengthMaxName` default-constructed (empty), and
`lengthMax`, `randomChance`, `kMin` indeterminate. -/
def warnInit (w : World) : WarnState :=
  { lengthMax := w.lengthMax0
    lengthMaxName := ""
    randomChance := w.randomChance0
    kMin := w.kMin0
    warningCount := 0 }

/-- The suffix chosen at line 149. -/
def modeSuffix (w : World) (parameters : Parameters) : String :=
  if parameters.windowed then w.suffixSketchWindowed else w.suffixSketch

/-- Lines 151-154: append `suffix` unless the name already ends with it. -/
def addSuffix (name suffix : String) : String :=
  if ! hasSuffix name suffix then name ++ suffix else name

/-- Lines 131-147: the `-o` argument when it is not empty, otherwise the first
argument, with `"-"` replaced by `"stdin"`. `arguments[0]` is only evaluated
after the guard at line 37 has established that there is one. -/
def choosePrefix (c : Command) : String :=
  if 0 < c.prefixOpt.argument.length then c.prefixOpt.argument
  else
    match c.arguments with
    | [] => ""
    | a :: _ => if a = "-" then "stdin" else a

/-- Lines 92-99: build the sketch from reads or from files. -/
def buildSketch (w : World) (parameters : Parameters) (files : List String)
    (verbosity : Int) : Sketch :=
  if parameters.reads then w.initFromReads files parameters
  else w.initFromFiles files parameters verbosity

/-- Lines 62-165, shared by both overloads up to the output name: build the
sketch from `files`, apply `-I`/`-C`, run the warning loop, write to
`outName`, warn, return 0. -/
def sketchAndWrite (w : World) (c : Command) (parameters : Parameters) (files : List String)
    (verbosity : Int) (outName : String) : RunResult :=
  let tWarnIC : List Event :=
    if c.id.active ∨ c.comment.active then
      (if 1 < files.length ∧ ¬ parameters.reads = true then
        [Event.cerr "WARNING: -I and -C will only apply to first sketch"] else [])
    else []
  let sketch0 : Sketch := buildSketch w parameters files verbosity
  let tInit : List Event :=
    if parameters.reads then [Event.initFromReads files]
    else [Event.initFromFiles files verbosity]
  let sketch1 : Sketch :=
    if c.id.active then sketch0.setReferenceName 0 c.id.argument else sketch0
  let tId : List Event :=
    if c.id.active then [Event.setReferenceName 0 c.id.argument] else []
  let sketch2 : Sketch :=
    if c.comment.active then sketch1.setReferenceComment 0 c.comment.argument else sketch1
  let tComment : List Event :=
    if c.comment.active then [Event.setReferenceComment 0 c.comment.argument] else []
  let threshold := lengthThreshold w.arith parameters.warning sketch2.kmerSpace
  let st := warnLoop w sketch2 threshold sketch2.references 0 (warnInit w)
  let tWrite : List Event := [Event.writeToCapnp outName]
  let tWarn : List Event :=
    if 0 < st.warningCount ∧ ¬ parameters.reads = true then
      [Event.warnKmerSize st.lengthMax st.lengthMaxName st.randomChance st.kMin st.warningCount]
    else []
  { ret := 0
    sketch := sketch2
    trace := tWarnIC ++ tInit ++ tId ++ tComment ++ tWrite ++ tWarn }

/-- `int CommandSketch::run() const` (lines 35-166). The loop at lines 53-60 is
guarded by `false && ...` and does nothing. -/
def run (w : World) (c : Command) : RunResult :=
  if c.arguments.length = 0 ∨ c.help.active = true then
    { ret := 0, sketch := Sketch.empty, trace := [Event.print] }
  else
    let verbosity : Int := 1
    let list := c.list.active
    let setup := w.sketchParameterSetup c
    let parameters := setup.2
    if setup.1 ≠ 0 then
      { ret := 1, sketch := Sketch.empty, trace := [] }
    else
      let files := collectFiles w list c.arguments []
      let tSplit : List Event := if list then c.arguments.map Event.splitFile else []
      let outName := addSuffix (choosePrefix c) (modeSuffix w parameters)
      let r := sketchAndWrite w c parameters files verbosity outName
      { r with trace := tSplit ++ r.trace }

/-- `int CommandSketch::run(std::string file_name) const` (lines 168-267): one
input file, no argument check, and the output name is `file_name + suffix`
(the normalised `prefix` of lines 246-254 is computed but not used). -/
def runFile (w : World) (c : Command) (file_name : String) : RunResult :=
  let verbosity : Int := 1
  let setup := w.sketchParameterSetup c
  let parameters := setup.2
  if setup.1 ≠ 0 then
    { ret := 1, sketch := Sketch.empty, trace := [] }
  else
    let files := [file_name]
    let output_name := file_name ++ modeSuffix w parameters
    sketchAndWrite w c parameters files verbosity output_name

/-- The file names handed to `writeToCapnp`, in call order. -/
def writtenFiles : List Event → List String
  | [] => []
  | Event.writeToCapnp f :: es => f :: writtenFiles es
  | _ :: es => writtenFiles es

/-- The `(index, name)` pairs handed to `setReferenceName`, in call order. -/
def renameCalls : List Event → List (Nat × String)
  | [] => []
  | Event.setReferenceName i n :: es => (i, n) :: renameCalls es
  | _ :: es => renameCalls es

/-- The `(index, comment)` pairs handed to `setReferenceComment`, in call order. -/
def recommentCalls : List Event → List (Nat × String)
  | [] => []
  | Event.setReferenceComment i n :: es => (i, n) :: recommentCalls es
  | _ :: es => recommentCalls es

/-- The argument tuples handed to `warnKmerSize`, in call order. -/
def warnCalls : List Event → List (Nat × String × Dbl × Int × Nat)
  | [] => []
  | Event.warnKmerSize m n p k cnt :: es => (m, n, p, k, cnt) :: warnCalls es
  | _ :: es => warnCalls es

/-- The sketch-building calls (`initFromReads` / `initFromFiles`) in a trace. -/
def buildCalls : List Event → List Event
  | [] => []
  | Event.initFromReads fs :: es => Event.initFromReads fs :: buildCalls es
  | Event.initFromFiles fs v :: es => Event.initFromFiles fs v :: buildCalls es
  | _ :: es => buildCalls es

/-- What "`-I` and `-C` override the first reference only" says of a run
`r` of command `c` whose build step produced `built`: `setReferenceName` is
called once, with index 0 and the `-I` argument, when `-I` is active and not at
all otherwise; likewise `setReferenceComment` for `-C`; the reference vector
keeps its length; every reference with index at least 1 is as built; and when
an option is inactive the corresponding field of every reference is as built. -/
def OverridesFirstOnly (c : Command) (built : Sketch) (r : RunResult) : Prop :=
  renameCalls r.trace = (if c.id.active then [(0, c.id.argument)] else []) ∧
  recommentCalls r.trace = (if c.comment.active then [(0, c.comment.argument)] else []) ∧
  r.sketch.references.length = built.references.length ∧
  (∀ i : Nat, 1 ≤ i → r.sketch.references[i]? = built.references[i]?) ∧
  (c.id.active = false →
    r.sketch.references.map Reference.name = built.references.map Reference.name) ∧
  (c.comment.active = false →
    r.sketch.references.map Reference.comment = built.references.map Reference.comment)

/-- Invariant of the warning loop after the references `pre` have been
visited: the counter is the number of visited references above the threshold,
and once it is positive the four recorded values belong to the first visited
reference whose length is the largest among the visited ones above the
threshold. -/
def WarnInv (w : World) (sketch : Sketch) (threshold : Dbl) (pre : List Reference)
    (st : WarnState) : Prop :=
  st.warningCount = pre.countP (fun r => lengthExceeds w.arith r.length threshold) ∧
  (0 < st.warningCount →
    ∃ (i : Nat) (r : Reference), pre[i]? = some r ∧ lengthExceeds w.arith r.length threshold = true ∧
      st.lengthMax = r.length ∧ st.lengthMaxName = r.name ∧
      st.randomChance = w.getRandomKmerChance sketch i ∧
      st.kMin = w.getMinKmerSize sketch i ∧
      (∀ r' ∈ pre, lengthExceeds w.arith r'.length threshold = true → r'.length ≤ r.length) ∧
      (∀ (j : Nat) (r' : Reference), j < i → pre[j]? = some r' →
        lengthExceeds w.arith r'.length threshold = true → r'.length < r.length))

/-- The locals of the warning loop when the loop of `run` has finished on
`sketch`. -/
def finalWarnState (w : World) (parameters : Parameters) (sketch : Sketch) : WarnState :=
  warnLoop w sketch (lengthThreshold w.arith parameters.warning sketch.kmerSpace)
    sketch.references 0
    (warnInit w)

/-! ## Pairwise comparison (declared in `CommandDistance.h`) -/

/-- `CommandDistance::CompareOutput::PairOutput`. -/
structure PairOutput where
  numer : Nat
  denom : Nat
  distance : ℚ
  pValue : ℚ
  pass : Bool
  deriving DecidableEq

/-- Modelled from the spec: the body of `pValue` is not among the sources (only
its declaration is). Following the comparator description, it is the upper-tail
probability of a binomial process: the probability of `x` or more successes
among `sketchSize` sampled positions, each succeeding with probability
`p = 1 / (1 + kmerSpace / effectiveJointLength)`. The spec does not say how the
effective joint length is obtained from the two lengths, so that is an
argument. -/
def pValue (effectiveJointLength : Nat → Nat → ℚ) (x lengthRef lengthQuery : Nat)
    (kmerSpace : ℚ) (sketchSize : Nat) : ℚ :=
  let p : ℚ := 1 / (1 + kmerSpace / effectiveJointLength lengthRef lengthQuery)
  ∑ i in Finset.range (sketchSize + 1 - x),
    (sketchSize.choose (x + i) : ℚ) * p ^ (x + i) * (1 - p) ^ (sketchSize - (x + i))

/-- Modelled from the spec: the linear merge of two ascending hash lists that
counts their common members (the comparison loop of `compareSketches`, whose
body is not among the sources); `fuel` bounds the number of steps. -/
def sharedCountAux : Nat → List Nat → List Nat → Nat
  | fuel + 1, a :: as, b :: bs =>
      if a < b then sharedCountAux fuel as (b :: bs)
      else if b < a then sharedCountAux fuel (a :: as) bs
      else 1 + sharedCountAux fuel as bs
  | _, _, _ => 0

/-- Modelled from the spec: the size of the intersection of two ascending hash
lists "by a linear merge of the two sorted sequences". Every step drops an
element of one of the lists, so the sum of the lengths is enough fuel. -/
def sharedCount (as bs : List Nat) : Nat :=
  sharedCountAux (as.length + bs.length) as bs

/-- Modelled from the spec: the Mash distance of a Jaccard estimate `J`: `1`
when `J = 0`, otherwise `-(1/k) * ln (2J / (1 + J))` clamped to `[0, 1]`. The
natural logarithm is an argument. -/
def mashDistance (ln : ℚ → ℚ) (kmerSize : Nat) (J : ℚ) : ℚ :=
  if J = 0 then 1
  else max 0 (min 1 (-(1 / (kmerSize : ℚ)) * ln (2 * J / (1 + J))))

/-- Modelled from the spec: the body of `compareSketches` is not among the
sources (only its declaration is). Following the comparator description: the
usable sketch size is `s = min(|A|, |B|, sketchSize)`; `shared` is the size of
the intersection of the bottom-`s` members of both; `J = shared / s`; the
distance is the Mash distance of `J`; the p-value is `pValue` of `shared` among
`s`; and the pair passes when the distance is at most `maxDistance` and the
p-value at most `maxPValue`. Arithmetic is exact; for `s = 0` (an empty sketch)
the quotient `J` is 0 here, which gives the maximal distance 1. -/
def compareSketches (ln : ℚ → ℚ) (effectiveJointLength : Nat → Nat → ℚ)
    (refRef refQry : Reference) (sketchSize : Nat) (kmerSize : Nat) (kmerSpace : ℚ)
    (maxDistance maxPValue : ℚ) : PairOutput :=
  let s := min (min refRef.hashesSorted.length refQry.hashesSorted.length) sketchSize
  let shared := sharedCount (refRef.hashesSorted.take s) (refQry.hashesSorted.take s)
  let J : ℚ := (shared : ℚ) / (s : ℚ)
  let distance := mashDistance ln kmerSize J
  let p := pValue effectiveJointLength shared refRef.length refQry.length kmerSpace s
  { numer := shared
    denom := s
    distance := distance
    pValue := p
    pass := decide (distance ≤ maxDistance) && decide (p ≤ maxPValue) }

/-! ## Concrete inputs used by the examples below -/

/-- A command with no option set and the given positional arguments. -/
def plainCommand (arguments : List String) : Command :=
  { help := ⟨false, ""⟩, list := ⟨false, ""⟩, prefixOpt := ⟨false, ""⟩
    id := ⟨false, ""⟩, comment := ⟨false, ""⟩, arguments := arguments }

/-- A world in which parameter setup returns `rc` and the given parameters,
every input file yields one reference of length `len` named after the file,
the k-mer space is `space`, and arithmetic does not round. -/
def sampleWorld (rc : Int) (parameters : Parameters) (len : Nat) (space : Dbl) : World :=
  { arith := exactArith
    sketchParameterSetup := fun _ => (rc, parameters)
    splitFile := fun _ => []
    initFromReads := fun fs _ =>
      { references := fs.map (fun f => ⟨f, "", len, []⟩), kmerSpace := space }
    initFromFiles := fun fs _ _ =>
      { references := fs.map (fun f => ⟨f, "", len, []⟩), kmerSpace := space }
    getRandomKmerChance := fun _ i => Dbl.fin (1 / ((i : ℚ) + 2))
    getMinKmerSize := fun _ i => i
    suffixSketch := ".msh"
    suffixSketchWindowed := ".msw"
    lengthMax0 := 0
    randomChance0 := Dbl.nan
    kMin0 := 0 }

/-- Setup succeeds, non-windowed, non-reads, warning threshold 1/2; every
input yields a reference of length 1000 over a k-mer space of 16. The length
threshold is `(0.5 * 16) / (1 - 0.5) = 16`, with no rounding in binary64
either. -/
def longWorld : World := sampleWorld 0 ⟨false, false, Dbl.fin (1 / 2)⟩ 1000 (Dbl.fin 16)

/-- As `longWorld`, but parameter setup fails with result 1. -/
def failWorld : World := sampleWorld 1 ⟨false, false, Dbl.fin (1 / 2)⟩ 1000 (Dbl.fin 16)

/-- As `longWorld`, but every reference has length 0, below the threshold. -/
def shortWorld : World := sampleWorld 0 ⟨false, false, Dbl.fin (1 / 2)⟩ 0 (Dbl.fin 16)

/-- As `longWorld`, in windowed mode. -/
def windowedWorld : World := sampleWorld 0 ⟨false, true, Dbl.fin (1 / 2)⟩ 1000 (Dbl.fin 16)

/-- The command `sketch -o out.msh genome.fa`. -/
def withOutput : Command := { plainCommand ["genome.fa"] with prefixOpt := ⟨true, "out.msh"⟩ }

/-- The command `sketch -I first a.fa b.fa`. -/
def withId : Command := { plainCommand ["a.fa", "b.fa"] with id := ⟨true, "first"⟩ }

/-- The command `sketch a.fa b.fa`. -/
def twoFiles : Command := plainCommand ["a.fa", "b.fa"]

/-! ## Trace lemmas -/

theorem writtenFiles_append (a b : List Event) :
    writtenFiles (a ++ b) = writtenFiles a ++ writtenFiles b := by
  induction a with
  | nil => rfl
  | cons e es ih => cases e <;> simp [writtenFiles, ih]

theorem writtenFiles_map_splitFile (l : List String) :
    writtenFiles (l.map Event.splitFile) = [] := by
  induction l with
  | nil => rfl
  | cons a l ih => simpa [writtenFiles] using ih

/-- The only file `sketchAndWrite` writes is `outName`, and it returns 0. -/
theorem sketchAndWrite_written (w : World) (c : Command) (parameters : Parameters)
    (files : List String) (verbosity : Int) (outName : String) :
    (sketchAndWrite w c parameters files verbosity outName).ret = 0 ∧
    writtenFiles (sketchAndWrite w c parameters files verbosity outName).trace = [outName] := by
  refine ⟨rfl, ?_⟩
  simp only [sketchAndWrite, writtenFiles_append]
  split_ifs <;> simp [writtenFiles]

/-- On the path past parameter setup, `run` returns 0 and writes exactly the
suffix-normalised output name. -/
theorem run_written (w : World) (c : Command) (hargs : c.arguments ≠ [])
    (hhelp : c.help.active = false) (hsetup : (w.sketchParameterSetup c).1 = 0) :
    (run w c).ret = 0 ∧
    writtenFiles (run w c).trace =
      [addSuffix (choosePrefix c) (modeSuffix w (w.sketchParameterSetup c).2)] := by
  have hlen : ¬ c.arguments.length = 0 := by
    intro h; exact hargs (List.length_eq_zero.mp h)
  have h := sketchAndWrite_written w c (w.sketchParameterSetup c).2
    (collectFiles w c.list.active c.arguments []) 1
    (addSuffix (choosePrefix c) (modeSuffix w (w.sketchParameterSetup c).2))
  simp only [run, hlen, hhelp, hsetup, false_or, Bool.false_eq_true, if_false, ne_eq,
    not_true_eq_false, writtenFiles_append]
  refine ⟨h.1, ?_⟩
  rw [h.2]
  split_ifs <;> simp [writtenFiles_map_splitFile, writtenFiles]

/-! ## Suffix lemmas -/

/-- The suffix test holds exactly when `suffix` is a suffix of `whole`. -/
theorem hasSuffix_iff (whole suffix : String) :
    hasSuffix whole suffix = true ↔ suffix.data <:+ whole.data := by
  unfold hasSuffix
  simp only [String.length]
  split_ifs with h
  · rw [decide_eq_true_iff, List.suffix_iff_eq_drop]
    exact eq_comm
  · constructor
    · intro hf; exact absurd hf (by simp)
    · intro hs; exact absurd hs.length_le h

theorem hasSuffix_append_self (name suffix : String) :
    hasSuffix (name ++ suffix) suffix = true := by
  rw [hasSuffix_iff, String.data_append]
  exact List.suffix_append _ _

/-- A name produced by `addSuffix` ends with the suffix. -/
theorem hasSuffix_addSuffix (name suffix : String) :
    hasSuffix (addSuffix name suffix) suffix = true := by
  unfold addSuffix
  by_cases h : hasSuffix name suffix = true
  · simp [h]
  · simp [h, hasSuffix_append_self]

theorem addSuffix_of_hasSuffix (name suffix : String) (h : hasSuffix name suffix = true) :
    addSuffix name suffix = name := by
  simp [addSuffix, h]

theorem addSuffix_of_not_hasSuffix (name suffix : String) (h : ¬ hasSuffix name suffix = true) :
    addSuffix name suffix = name ++ suffix := by
  simp [addSuffix, h]

theorem modifyAt_length {α : Type} (f : α → α) (i : Nat) (l : List α) :
    (modifyAt f i l).length = l.length := by
  induction l generalizing i with
  | nil => cases i <;> rfl
  | cons x xs ih => cases i <;> simp [modifyAt, ih]

theorem modifyAt_zero_getElem?_succ {α : Type} (f : α → α) (l : List α) (i : Nat) :
    (modifyAt f 0 l)[i + 1]? = l[i + 1]? := by
  cases l <;> simp [modifyAt]

theorem modifyAt_map_of_comp {α β : Type} (f : α → α) (g : α → β) (hg : ∀ x, g (f x) = g x)
    (i : Nat) (l : List α) : (modifyAt f i l).map g = l.map g := by
  induction l generalizing i with
  | nil => cases i <;> rfl
  | cons x xs ih => cases i <;> simp [modifyAt, ih, hg]

theorem renameCalls_append (a b : List Event) :
    renameCalls (a ++ b) = renameCalls a ++ renameCalls b := by
  induction a with
  | nil => rfl
  | cons e es ih => cases e <;> simp [renameCalls, ih]

theorem recommentCalls_append (a b : List Event) :
    recommentCalls (a ++ b) = recommentCalls a ++ recommentCalls b := by
  induction a with
  | nil => rfl
  | cons e es ih => cases e <;> simp [recommentCalls, ih]

theorem renameCalls_map_splitFile (l : List String) :
    renameCalls (l.map Event.splitFile) = [] := by
  induction l with
  | nil => rfl
  | cons a l ih => simpa [renameCalls] using ih

theorem recommentCalls_map_splitFile (l : List String) :
    recommentCalls (l.map Event.splitFile) = [] := by
  induction l with
  | nil => rfl
  | cons a l ih => simpa [recommentCalls] using ih

/-- The sketch `sketchAndWrite` ends with is the built sketch with `-I` and
`-C` applied to index 0. -/
theorem sketchAndWrite_sketch (w : World) (c : Command) (parameters : Parameters)
    (files : List String) (verbosity : Int) (outName : String) :
    (sketchAndWrite w c parameters files verbosity outName).sketch =
      (if c.comment.active then
        (if c.id.active then
            (buildSketch w parameters files verbosity).setReferenceName 0 c.id.argument
          else buildSketch w parameters files verbosity).setReferenceComment 0 c.comment.argument
      else
        (if c.id.active then
            (buildSketch w parameters files verbosity).setReferenceName 0 c.id.argument
          else buildSketch w parameters files verbosity)) := by
  unfold sketchAndWrite
  by_cases h1 : c.comment.active = true <;> by_cases h2 : c.id.active = true <;> simp [h1, h2]

theorem sketchAndWrite_renameCalls (w : World) (c : Command) (parameters : Parameters)
    (files : List String) (verbosity : Int) (outName : String) :
    renameCalls (sketchAndWrite w c parameters files verbosity outName).trace =
      (if c.id.active then [(0, c.id.argument)] else []) ∧
    recommentCalls (sketchAndWrite w c parameters files verbosity outName).trace =
      (if c.comment.active then [(0, c.comment.argument)] else []) := by
  simp only [sketchAndWrite, renameCalls_append, recommentCalls_append,
    apply_ite renameCalls, apply_ite recommentCalls, renameCalls, recommentCalls,
    ite_self, List.append_nil, List.nil_append, and_self]

theorem sketchAndWrite_overrides (w : World) (c : Command) (parameters : Parameters)
    (files : List String) (verbosity : Int) (outName : String) :
    OverridesFirstOnly c (buildSketch w parameters files verbosity)
      (sketchAndWrite w c parameters files verbosity outName) := by
  obtain ⟨hr, hc⟩ := sketchAndWrite_renameCalls w c parameters files verbosity outName
  refine ⟨hr, hc, ?_, ?_, ?_, ?_⟩
  · rw [sketchAndWrite_sketch]
    split_ifs <;>
      simp [Sketch.setReferenceName, Sketch.setReferenceComment, modifyAt_length]
  · intro i hi
    obtain ⟨k, rfl⟩ : ∃ k, i = k + 1 := ⟨i - 1, by omega⟩
    rw [sketchAndWrite_sketch]
    split_ifs <;>
      simp [Sketch.setReferenceName, Sketch.setReferenceComment, modifyAt_zero_getElem?_succ]
  · intro hid
    rw [sketchAndWrite_sketch]
    simp only [hid, Bool.false_eq_true, if_false]
    split_ifs
    · simp only [Sketch.setReferenceName, Sketch.setReferenceComment]
      apply modifyAt_map_of_comp
      intro x
      rfl
    · rfl
  · intro hcm
    rw [sketchAndWrite_sketch]
    simp only [hcm, Bool.false_eq_true, if_false]
    split_ifs
    · simp only [Sketch.setReferenceName, Sketch.setReferenceComment]
      apply modifyAt_map_of_comp
      intro x
      rfl
    · rfl

/-- Past parameter setup, `run` is `sketchAndWrite` on the collected files,
with the `splitFile` calls in front of its trace. -/
theorem run_eq (w : World) (c : Command) (hargs : c.arguments ≠ [])
    (hhelp : c.help.active = false) (hsetup : (w.sketchParameterSetup c).1 = 0) :
    (run w c).sketch = (sketchAndWrite w c (w.sketchParameterSetup c).2
      (collectFiles w c.list.active c.arguments []) 1
      (addSuffix (choosePrefix c) (modeSuffix w (w.sketchParameterSetup c).2))).sketch ∧
    (run w c).trace =
      (if c.list.active then c.arguments.map Event.splitFile else []) ++
      (sketchAndWrite w c (w.sketchParameterSetup c).2
        (collectFiles w c.list.active c.arguments []) 1
        (addSuffix (choosePrefix c) (modeSuffix w (w.sketchParameterSetup c).2))).trace := by
  have hlen : ¬ c.arguments.length = 0 := by
    intro h; exact hargs (List.length_eq_zero.mp h)
  simp only [run, hlen, hhelp, hsetup, false_or, Bool.false_eq_true, if_false, ne_eq,
    not_true_eq_false, and_self]

/-- Past parameter setup, `run(file_name)` is `sketchAndWrite` on the one file. -/
theorem runFile_eq (w : World) (c : Command) (file_name : String)
    (hsetup : (w.sketchParameterSetup c).1 = 0) :
    runFile w c file_name = sketchAndWrite w c (w.sketchParameterSetup c).2 [file_name] 1
      (file_name ++ modeSuffix w (w.sketchParameterSetup c).2) := by
  simp only [runFile, hsetup, ne_eq, not_true_eq_false, if_false]

/-- Without rounding and for a warning threshold below 1, the length threshold
is the finite value `w * S / (1 - w)`. -/
theorem lengthThreshold_exact_of_lt_one (w S : ℚ) (hw1 : w < 1) :
    lengthThreshold exactArith (Dbl.fin w) (Dbl.fin S) = Dbl.fin (w * S / (1 - w)) := by
  have h : (1 - w) ≠ 0 := by linarith
  simp [lengthThreshold, exactArith, Dbl.exactMul, Dbl.exactSub, Dbl.exactDiv, h]

theorem warnInv_init (w : World) (sketch : Sketch) (threshold : Dbl) :
    WarnInv w sketch threshold [] (warnInit w) := by
  refine ⟨rfl, ?_⟩
  intro h
  exact absurd h (by simp [warnInit])

theorem getElem?_append_singleton_of_some {α : Type} (pre : List α) (x y : α) (i : Nat)
    (h : pre[i]? = some y) : (pre ++ [x])[i]? = some y := by
  have hi : i < pre.length := by
    by_contra hc
    rw [List.getElem?_eq_none (by omega)] at h
    exact absurd h (by simp)
  rw [List.getElem?_append_left hi]
  exact h

theorem getElem?_of_append_singleton_lt {α : Type} (pre : List α) (x y : α) (j : Nat)
    (hj : j < pre.length) (h : (pre ++ [x])[j]? = some y) : pre[j]? = some y := by
  rw [List.getElem?_append_left hj] at h
  exact h

theorem warnInv_step (w : World) (sketch : Sketch) (threshold : Dbl) (pre : List Reference)
    (st : WarnState) (r : Reference) (hinv : WarnInv w sketch threshold pre st) :
    WarnInv w sketch threshold (pre ++ [r]) (warnStep w sketch threshold st pre.length r) := by
  obtain ⟨hcount, hmax⟩ := hinv
  unfold warnStep
  by_cases hr : lengthExceeds w.arith r.length threshold = true
  · simp only [hr, if_true]
    by_cases hnew : st.warningCount = 0 ∨ st.lengthMax < r.length
    · simp only [hnew, if_true]
      refine ⟨by simp [List.countP_append, hr, hcount], ?_⟩
      intro _
      refine ⟨pre.length, r, by simp, hr, rfl, rfl, rfl, rfl, ?_, ?_⟩
      · intro r' hr' hex
        rcases List.mem_append.mp hr' with hin | hin
        · rcases hnew with h0 | hlt
          · have hz : pre.countP (fun r => lengthExceeds w.arith r.length threshold) = 0 := by
              rw [← hcount]; exact h0
            rw [List.countP_eq_zero] at hz
            exact absurd hex (by simpa using hz r' hin)
          · have hpos : 0 < st.warningCount := by
              rw [hcount]
              exact List.countP_pos_iff.mpr ⟨r', hin, by simpa using hex⟩
            obtain ⟨i, r0, _, _, hlm, _, _, _, hle, _⟩ := hmax hpos
            have := hle r' hin hex
            omega
        · have : r' = r := by simpa using hin
          rw [this]
      · intro j r' hj hget hex
        have hget' := getElem?_of_append_singleton_lt pre r r' j hj hget
        have hin : r' ∈ pre := List.getElem?_mem hget'
        rcases hnew with h0 | hlt
        · have hz : pre.countP (fun r => lengthExceeds w.arith r.length threshold) = 0 := by
            rw [← hcount]; exact h0
          rw [List.countP_eq_zero] at hz
          exact absurd hex (by simpa using hz r' hin)
        · have hpos : 0 < st.warningCount := by
            rw [hcount]
            exact List.countP_pos_iff.mpr ⟨r', hin, by simpa using hex⟩
          obtain ⟨i, r0, _, _, hlm, _, _, _, hle, _⟩ := hmax hpos
          have := hle r' hin hex
          omega
    · simp only [hnew, if_false]
      have hpos : 0 < st.warningCount := by
        by_contra hc
        exact hnew (Or.inl (by omega))
      have hle0 : r.length ≤ st.lengthMax := by
        by_contra hc
        exact hnew (Or.inr (by omega))
      refine ⟨by simp [List.countP_append, hr, hcount], ?_⟩
      intro _
      obtain ⟨i, r0, hget, hex0, hlm, hnm, hch, hk, hle, hlt⟩ := hmax hpos
      refine ⟨i, r0, getElem?_append_singleton_of_some pre r r0 i hget, hex0, hlm, hnm, hch, hk,
        ?_, ?_⟩
      · intro r' hr' hex
        rcases List.mem_append.mp hr' with hin | hin
        · exact hle r' hin hex
        · have : r' = r := by simpa using hin
          rw [this]; omega
      · intro j r' hj hget' hex
        have hi : i < pre.length := by
          by_contra hc
          rw [List.getElem?_eq_none (by omega)] at hget
          exact absurd hget (by simp)
        exact hlt j r' hj (getElem?_of_append_singleton_lt pre r r' j (by omega) hget') hex
  · simp only [hr, Bool.false_eq_true, if_false]
    refine ⟨by simp [List.countP_append, hr, hcount], ?_⟩
    intro hpos
    obtain ⟨i, r0, hget, hex0, hlm, hnm, hch, hk, hle, hlt⟩ := hmax hpos
    refine ⟨i, r0, getElem?_append_singleton_of_some pre r r0 i hget, hex0, hlm, hnm, hch, hk,
      ?_, ?_⟩
    · intro r' hr' hex
      rcases List.mem_append.mp hr' with hin | hin
      · exact hle r' hin hex
      · have : r' = r := by simpa using hin
        rw [this] at hex
        exact absurd hex hr
    · intro j r' hj hget' hex
      have hi : i < pre.length := by
        by_contra hc
        rw [List.getElem?_eq_none (by omega)] at hget
        exact absurd hget (by simp)
      exact hlt j r' hj (getElem?_of_append_singleton_lt pre r r' j (by omega) hget') hex

theorem warnInv_loop (w : World) (sketch : Sketch) (threshold : Dbl) :
    ∀ (rs pre : List Reference) (st : WarnState), WarnInv w sketch threshold pre st →
      WarnInv w sketch threshold (pre ++ rs) (warnLoop w sketch threshold rs pre.length st) := by
  intro rs
  induction rs with
  | nil =>
    intro pre st h
    simpa [warnLoop] using h
  | cons r rs ih =>
    intro pre st h
    have hstep := warnInv_step w sketch threshold pre st r h
    have := ih (pre ++ [r]) _ hstep
    simpa [warnLoop] using this

theorem warnCalls_append (a b : List Event) :
    warnCalls (a ++ b) = warnCalls a ++ warnCalls b := by
  induction a with
  | nil => rfl
  | cons e es ih => cases e <;> simp [warnCalls, ih]

theorem warnCalls_map_splitFile (l : List String) :
    warnCalls (l.map Event.splitFile) = [] := by
  induction l with
  | nil => rfl
  | cons a l ih => simpa [warnCalls] using ih

theorem run_warnCalls (w : World) (c : Command) (hargs : c.arguments ≠ [])
    (hhelp : c.help.active = false) (hsetup : (w.sketchParameterSetup c).1 = 0) :
    warnCalls (run w c).trace =
      (if 0 < (finalWarnState w (w.sketchParameterSetup c).2 (run w c).sketch).warningCount ∧
          ¬ (w.sketchParameterSetup c).2.reads = true then
        [((finalWarnState w (w.sketchParameterSetup c).2 (run w c).sketch).lengthMax,
          (finalWarnState w (w.sketchParameterSetup c).2 (run w c).sketch).lengthMaxName,
          (finalWarnState w (w.sketchParameterSetup c).2 (run w c).sketch).randomChance,
          (finalWarnState w (w.sketchParameterSetup c).2 (run w c).sketch).kMin,
          (finalWarnState w (w.sketchParameterSetup c).2 (run w c).sketch).warningCount)]
      else []) := by
  have hlen : ¬ c.arguments.length = 0 := by
    intro h; exact hargs (List.length_eq_zero.mp h)
  simp only [run, hlen, hhelp, hsetup, false_or, Bool.false_eq_true, if_false, ne_eq,
    not_true_eq_false, sketchAndWrite, warnCalls_append, finalWarnState,
    apply_ite warnCalls, warnCalls,
    warnCalls_map_splitFile, ite_self, List.append_nil,
    List.nil_append]

theorem sharedCountAux_self (l : List Nat) :
    ∀ fuel : Nat, l.length ≤ fuel → sharedCountAux fuel l l = l.length := by
  induction l with
  | nil => intro fuel _; cases fuel <;> rfl
  | cons a as ih =>
    intro fuel h
    cases fuel with
    | zero => simp at h
    | succ n =>
      have hn : as.length ≤ n := by simpa using h
      simp [sharedCountAux, ih n hn, Nat.add_comm]

theorem sharedCount_self (l : List Nat) : sharedCount l l = l.length :=
  sharedCountAux_self l _ (Nat.le_add_right _ _)

theorem binomial_total (p : ℚ) (n : Nat) :
    ∑ i in Finset.range (n + 1), (n.choose i : ℚ) * p ^ i * (1 - p) ^ (n - i) = 1 :=
  calc ∑ i in Finset.range (n + 1), (n.choose i : ℚ) * p ^ i * (1 - p) ^ (n - i)
      = ∑ i in Finset.range (n + 1), p ^ i * (1 - p) ^ (n - i) * (n.choose i : ℚ) :=
        Finset.sum_congr rfl (fun i _ => by ring)
    _ = (p + (1 - p)) ^ n := (add_pow p (1 - p) n).symm
    _ = 1 := by rw [add_sub_cancel, one_pow]

/-- The warning loop of `run`, in terms of the model's `lengthThreshold` and
`lengthExceeds`: the tuple handed to `warnKmerSize` belongs to the first
reference of maximal length among those that pass the test. -/
theorem warnLoop_tuple (w : World) (c : Command)
    (hargs : c.arguments ≠ []) (hhelp : c.help.active = false)
    (hsetup : (w.sketchParameterSetup c).1 = 0)
    (hex : ∃ r ∈ (run w c).sketch.references,
      lengthExceeds w.arith r.length
        (lengthThreshold w.arith (w.sketchParameterSetup c).2.warning
          (run w c).sketch.kmerSpace) = true) :
    ∃ (i : Nat) (r : Reference),
      (run w c).sketch.references[i]? = some r ∧
      lengthExceeds w.arith r.length
        (lengthThreshold w.arith (w.sketchParameterSetup c).2.warning
          (run w c).sketch.kmerSpace) = true ∧
      (∀ r' ∈ (run w c).sketch.references,
        lengthExceeds w.arith r'.length
          (lengthThreshold w.arith (w.sketchParameterSetup c).2.warning
            (run w c).sketch.kmerSpace) = true → r'.length ≤ r.length) ∧
      (∀ (j : Nat) (r' : Reference), j < i → (run w c).sketch.references[j]? = some r' →
        r'.length ≠ r.length) ∧
      warnCalls (run w c).trace =
        (if (w.sketchParameterSetup c).2.reads = true then []
        else
          [(r.length, r.name, w.getRandomKmerChance (run w c).sketch i,
            w.getMinKmerSize (run w c).sketch i,
            (run w c).sketch.references.countP (fun r' =>
              lengthExceeds w.arith r'.length
                (lengthThreshold w.arith (w.sketchParameterSetup c).2.warning
                  (run w c).sketch.kmerSpace)))]) := by
  have hinv := warnInv_loop w (run w c).sketch
    (lengthThreshold w.arith (w.sketchParameterSetup c).2.warning (run w c).sketch.kmerSpace)
    (run w c).sketch.references [] (warnInit w) (warnInv_init _ _ _)
  simp only [List.nil_append, List.length_nil] at hinv
  obtain ⟨hcount, hmax⟩ := hinv
  have hpos : 0 < (finalWarnState w (w.sketchParameterSetup c).2 (run w c).sketch).warningCount := by
    obtain ⟨r, hin, hr⟩ := hex
    unfold finalWarnState
    rw [hcount]
    exact List.countP_pos_iff.mpr ⟨r, hin, by simpa using hr⟩
  obtain ⟨i, r, hget, hexr, hlm, hnm, hch, hk, hle, hlt⟩ := hmax hpos
  refine ⟨i, r, hget, hexr, hle, ?_, ?_⟩
  · intro j r' hj hgetj heq
    have hexj : lengthExceeds w.arith r'.length
        (lengthThreshold w.arith (w.sketchParameterSetup c).2.warning
          (run w c).sketch.kmerSpace) = true := by rw [heq]; exact hexr
    have := hlt j r' hj hgetj hexj
    omega
  · rw [run_warnCalls w c hargs hhelp hsetup]
    by_cases hreads : (w.sketchParameterSetup c).2.reads = true
    · simp [hreads]
    · rw [if_pos ⟨hpos, hreads⟩, if_neg hreads]
      unfold finalWarnState
      rw [hlm, hnm, hch, hk, hcount]

/-- The test `argument.length() > 0` of line 133 is "the argument is not the
empty string". -/
theorem length_pos_iff_ne_empty (t : String) : 0 < t.length ↔ t ≠ "" := by
  cases t with
  | mk l =>
    cases l with
    | nil => simp [String.length]
    | cons x xs =>
      simp only [String.length, List.length_cons, Nat.zero_lt_succ, true_iff]
      intro h
      have := congrArg String.data h
      simp at this

/-- The prefix chosen at lines 131-147, spelled out on a non-empty argument
list. -/
theorem choosePrefix_cons (c : Command) (a : String) (rest : List String)
    (hargs : c.arguments = a :: rest) :
    choosePrefix c =
      (if c.prefixOpt.argument ≠ "" then c.prefixOpt.argument
        else if a = "-" then "stdin" else a) := by
  unfold choosePrefix
  by_cases h : c.prefixOpt.argument ≠ ""
  · rw [if_pos ((length_pos_iff_ne_empty _).mpr h), if_pos h]
  · rw [if_neg (fun hp => h ((length_pos_iff_ne_empty _).mp hp)), if_neg h, hargs]

/-! ## Claims -/

/-- C1: when `sketchParameterSetup` reports a failure (non-zero result),
`run()` (called with at least one argument and help inactive) and
`run(file_name)` both return 1 at once with an empty trace of external calls:
no sketch is built (neither `initFromReads` nor `initFromFiles` is called) and
no file is written (`writeToCapnp` is not called). -/
theorem setup_failure_returns_one (w : World) (c : Command) (file_name : String)
    (hfail : (w.sketchParameterSetup c).1 ≠ 0) :
    (c.arguments ≠ [] → c.help.active = false →
      (run w c).ret = 1 ∧ (run w c).trace = [] ∧
      buildCalls (run w c).trace = [] ∧ writtenFiles (run w c).trace = []) ∧
    ((runFile w c file_name).ret = 1 ∧ (runFile w c file_name).trace = [] ∧
      buildCalls (runFile w c file_name).trace = [] ∧
      writtenFiles (runFile w c file_name).trace = []) := by
  constructor
  · intro hargs hhelp
    have hlen : ¬ c.arguments.length = 0 := by
      intro h; exact hargs (List.length_eq_zero.mp h)
    simp [run, hlen, hhelp, hfail, buildCalls, writtenFiles]
  · simp [runFile, hfail, buildCalls, writtenFiles]

/-- Witness for C1: setup returns 1 on the command `sketch a.fa b.fa`. -/
theorem setup_failure_returns_one_witness :
    ((run failWorld twoFiles).ret = 1 ∧ (run failWorld twoFiles).trace = [] ∧
      buildCalls (run failWorld twoFiles).trace = [] ∧
      writtenFiles (run failWorld twoFiles).trace = []) ∧
    ((runFile failWorld twoFiles "a.fa").ret = 1 ∧
      (runFile failWorld twoFiles "a.fa").trace = [] ∧
      buildCalls (runFile failWorld twoFiles "a.fa").trace = [] ∧
      writtenFiles (runFile failWorld twoFiles "a.fa").trace = []) :=
  ⟨(setup_failure_returns_one failWorld twoFiles "a.fa" (by decide)).1 (by decide) (by decide),
    (setup_failure_returns_one failWorld twoFiles "a.fa" (by decide)).2⟩

/-- C2: the k-mer-size warning never changes the outcome of `run`. Take two
worlds that agree on the suffix constants and on the `windowed` flag delivered
by a successful parameter setup, and are otherwise arbitrary (the built
references, their lengths, the k-mer space, the warning threshold, the values of
`getRandomKmerChance` and `getMinKmerSize`, and so `warningCount`, `lengthMax`,
`kMin` and `randomChance`, may all differ): on the same command `run` returns 0
in both and hands the same single file name to `writeToCapnp`. -/
theorem warning_never_changes_outcome (w1 w2 : World) (c : Command)
    (hargs : c.arguments ≠ []) (hhelp : c.help.active = false)
    (hsetup1 : (w1.sketchParameterSetup c).1 = 0)
    (hsetup2 : (w2.sketchParameterSetup c).1 = 0)
    (hwindowed : (w1.sketchParameterSetup c).2.windowed = (w2.sketchParameterSetup c).2.windowed)
    (hsuffix : w1.suffixSketch = w2.suffixSketch)
    (hsuffixW : w1.suffixSketchWindowed = w2.suffixSketchWindowed) :
    (run w1 c).ret = 0 ∧ (run w2 c).ret = 0 ∧
    writtenFiles (run w1 c).trace = writtenFiles (run w2 c).trace ∧
    (writtenFiles (run w1 c).trace).length = 1 := by
  obtain ⟨r1, f1⟩ := run_written w1 c hargs hhelp hsetup1
  obtain ⟨r2, f2⟩ := run_written w2 c hargs hhelp hsetup2
  refine ⟨r1, r2, ?_, ?_⟩
  · rw [f1, f2]
    simp [modeSuffix, hwindowed, hsuffix, hsuffixW]
  · rw [f1]; rfl

/-- Witness for C2: with k-mer space 16 and warning threshold 1/2, references
of length 0 raise no warning (`shortWorld`) and references of length 1000 all
raise one (`longWorld`). -/
theorem warning_never_changes_outcome_witness :
    (run shortWorld twoFiles).ret = 0 ∧ (run longWorld twoFiles).ret = 0 ∧
    writtenFiles (run shortWorld twoFiles).trace = writtenFiles (run longWorld twoFiles).trace ∧
    (writtenFiles (run shortWorld twoFiles).trace).length = 1 :=
  warning_never_changes_outcome shortWorld longWorld twoFiles
    (by decide) (by decide) (by decide) (by decide) (by decide) (by decide) (by decide)

/-- C3: on every run past parameter setup, let `T` be the `double` that line
111 computes, `(warning * kmerSpace) / (1. - warning)` in the arithmetic of the
platform, and call a reference "above the threshold" when the test of line
117, `length > T` with the length converted to `double`, succeeds. If at least
one reference is above the threshold, there are an index `i` and the reference
`r` at that index such that `r` is above the threshold, no reference above the
threshold is longer than `r`, no reference before index `i` has the length of
`r`, and (outside reads mode, where `warnKmerSize` is not called at all) the one
tuple handed to `warnKmerSize` is: `lengthMax` the length of `r`,
`lengthMaxName` the name of `r`, `randomChance` and `kMin` the values of
`getRandomKmerChance(i)` and `getMinKmerSize(i)`, and `warningCount` the number
of references above the threshold. -/
theorem warn_tuple_correct (w : World) (c : Command) (T : Dbl)
    (hargs : c.arguments ≠ []) (hhelp : c.help.active = false)
    (hsetup : (w.sketchParameterSetup c).1 = 0)
    (hT : T = w.arith.div
      (w.arith.mul (w.sketchParameterSetup c).2.warning (run w c).sketch.kmerSpace)
      (w.arith.sub (Dbl.fin 1) (w.sketchParameterSetup c).2.warning))
    (hex : ∃ r ∈ (run w c).sketch.references, Dbl.lt T (w.arith.ofUInt64 r.length) = true) :
    ∃ (i : Nat) (r : Reference),
      (run w c).sketch.references[i]? = some r ∧
      Dbl.lt T (w.arith.ofUInt64 r.length) = true ∧
      (∀ r' ∈ (run w c).sketch.references,
        Dbl.lt T (w.arith.ofUInt64 r'.length) = true → r'.length ≤ r.length) ∧
      (∀ (j : Nat) (r' : Reference), j < i → (run w c).sketch.references[j]? = some r' →
        r'.length ≠ r.length) ∧
      warnCalls (run w c).trace =
        (if (w.sketchParameterSetup c).2.reads = true then []
        else
          [(r.length, r.name, w.getRandomKmerChance (run w c).sketch i,
            w.getMinKmerSize (run w c).sketch i,
            (run w c).sketch.references.countP (fun r' =>
              Dbl.lt T (w.arith.ofUInt64 r'.length)))]) := by
  subst hT
  exact warnLoop_tuple w c hargs hhelp hsetup hex

/-- Witness for C3: two inputs of length 1000 with k-mer space 16 and warning
threshold 1/2: the threshold is `(0.5 * 16) / (1 - 0.5) = 16`, both references
are above it, and `warnKmerSize` receives the first of them with count 2. -/
theorem warn_tuple_correct_witness :
    ∃ (i : Nat) (r : Reference),
      (run longWorld twoFiles).sketch.references[i]? = some r ∧
      Dbl.lt (Dbl.fin 16) (longWorld.arith.ofUInt64 r.length) = true ∧
      (∀ r' ∈ (run longWorld twoFiles).sketch.references,
        Dbl.lt (Dbl.fin 16) (longWorld.arith.ofUInt64 r'.length) = true →
          r'.length ≤ r.length) ∧
      (∀ (j : Nat) (r' : Reference), j < i →
        (run longWorld twoFiles).sketch.references[j]? = some r' → r'.length ≠ r.length) ∧
      warnCalls (run longWorld twoFiles).trace =
        (if (longWorld.sketchParameterSetup twoFiles).2.reads = true then []
        else
          [(r.length, r.name, longWorld.getRandomKmerChance (run longWorld twoFiles).sketch i,
            longWorld.getMinKmerSize (run longWorld twoFiles).sketch i,
            (run longWorld twoFiles).sketch.references.countP (fun r' =>
              Dbl.lt (Dbl.fin 16) (longWorld.arith.ofUInt64 r'.length)))]) :=
  warn_tuple_correct longWorld twoFiles (Dbl.fin 16) (by decide) (by decide) (by decide)
    (by
      norm_num [run, longWorld, twoFiles, sampleWorld, plainCommand, sketchAndWrite,
        buildSketch, exactArith, Dbl.exactMul, Dbl.exactSub, Dbl.exactDiv])
    ⟨⟨"a.fa", "", 1000, []⟩, by decide, by
      norm_num [longWorld, sampleWorld, exactArith, Dbl.lt]⟩

/-- C4, as stated, fails on the code. Non-windowed mode, suffix `.msh`, no `-o`:
for the single input `a.msh` the sketch is written to `a.msh`, not to
`a.msh.msh`; and in windowed mode (with `.msw` as the windowed suffix) the input
`a.fa` is written to `a.fa.msw`, not to `a.fa.msh`. -/
theorem default_output_name_counterexample :
    (longWorld.suffixSketch = ".msh" ∧
      (plainCommand ["a.msh"]).prefixOpt.argument = "" ∧
      writtenFiles (run longWorld (plainCommand ["a.msh"])).trace = ["a.msh"] ∧
      "a.msh" ≠ "a.msh" ++ ".msh") ∧
    (windowedWorld.suffixSketch = ".msh" ∧
      (plainCommand ["a.fa"]).prefixOpt.argument = "" ∧
      writtenFiles (run windowedWorld (plainCommand ["a.fa"])).trace = ["a.fa.msw"] ∧
      "a.fa.msw" ≠ "a.fa" ++ ".msh") := by
  refine ⟨⟨rfl, rfl, ?_, by decide⟩, ⟨rfl, rfl, ?_, by decide⟩⟩
  · rw [(run_written _ _ (by decide) (by decide) (by decide)).2]
    decide
  · rw [(run_written _ _ (by decide) (by decide) (by decide)).2]
    decide

/-- C4, amended: when the `-o` argument is empty, the arguments are
`a :: rest`, help is inactive and parameter setup succeeds, `run` writes the
sketch to exactly one file. With `P` the first input name `a`, or `stdin` when
`a` is `-`, and `S` the constant `suffixSketch` outside windowed mode and the
constant `suffixSketchWindowed` in windowed mode, that file is `P` when `P`
already ends with `S`, and `P` followed by `S` otherwise. In particular, when
`suffixSketch` is `.msh`, outside windowed mode a `P` that does not end with
`.msh` is written to `P` followed by `.msh`. -/
theorem default_output_name (w : World) (c : Command) (a : String) (rest : List String)
    (hargs : c.arguments = a :: rest) (hhelp : c.help.active = false)
    (hsetup : (w.sketchParameterSetup c).1 = 0) (hno : c.prefixOpt.argument = "") :
    ∃ P S : String,
      P = (if a = "-" then "stdin" else a) ∧
      S = (if (w.sketchParameterSetup c).2.windowed = true then w.suffixSketchWindowed
        else w.suffixSketch) ∧
      (S.data <:+ P.data → writtenFiles (run w c).trace = [P]) ∧
      (¬ S.data <:+ P.data → writtenFiles (run w c).trace = [P ++ S]) ∧
      (w.suffixSketch = ".msh" → (w.sketchParameterSetup c).2.windowed = false →
        ¬ ".msh".data <:+ P.data → writtenFiles (run w c).trace = [P ++ ".msh"]) := by
  have hne : c.arguments ≠ [] := by rw [hargs]; exact List.cons_ne_nil _ _
  have hP : choosePrefix c = (if a = "-" then "stdin" else a) := by
    rw [choosePrefix_cons c a rest hargs, if_neg (fun h => h hno)]
  have hS : modeSuffix w (w.sketchParameterSetup c).2 =
      (if (w.sketchParameterSetup c).2.windowed = true then w.suffixSketchWindowed
        else w.suffixSketch) := rfl
  have hw := (run_written w c hne hhelp hsetup).2
  rw [hP, hS] at hw
  refine ⟨_, _, rfl, rfl, ?_, ?_, ?_⟩
  · intro h
    rw [hw, addSuffix_of_hasSuffix _ _ ((hasSuffix_iff _ _).mpr h)]
  · intro h
    rw [hw, addSuffix_of_not_hasSuffix _ _ (fun hs => h ((hasSuffix_iff _ _).mp hs))]
  · intro hmsh hwin h
    have hS2 : (if (w.sketchParameterSetup c).2.windowed = true then w.suffixSketchWindowed
        else w.suffixSketch) = ".msh" := by
      simp [hwin, hmsh]
    rw [hw, hS2, addSuffix_of_not_hasSuffix _ _ (fun hs => h ((hasSuffix_iff _ _).mp hs))]

/-- Witness for C4 (amended): the single input `genome.fa`, no `-o`, outside
windowed mode with suffix `.msh`: the sketch is written to `genome.fa.msh`. -/
theorem default_output_name_witness :
    writtenFiles (run longWorld (plainCommand ["genome.fa"])).trace = ["genome.fa.msh"] := by
  obtain ⟨P, S, hP, _, _, _, hmsh⟩ :=
    default_output_name longWorld (plainCommand ["genome.fa"]) "genome.fa" [] rfl rfl rfl rfl
  have hnot : ¬ ".msh".data <:+ P.data := by
    rw [hP]
    intro h
    exact absurd ((hasSuffix_iff _ _).mpr h) (by decide)
  rw [hmsh rfl rfl hnot, hP]
  decide

/-- C5: `-I` and `-C` override the identity of the first reference only, in
both overloads of `run`. On every run past parameter setup, `setReferenceName`
is called exactly once, with index 0 and the `-I` argument, when `-I` is active
and not at all otherwise; likewise `setReferenceComment` for `-C`. The reference
vector keeps its length, every reference with index at least 1 is as the build
produced it, and when an option is inactive the corresponding field (name for
`-I`, comment for `-C`) of every reference is as the build produced it. -/
theorem override_first_reference_only (w : World) (c : Command) (file_name : String)
    (hsetup : (w.sketchParameterSetup c).1 = 0) :
    (c.arguments ≠ [] → c.help.active = false →
      OverridesFirstOnly c
        (buildSketch w (w.sketchParameterSetup c).2
          (collectFiles w c.list.active c.arguments []) 1)
        (run w c)) ∧
    OverridesFirstOnly c (buildSketch w (w.sketchParameterSetup c).2 [file_name] 1)
      (runFile w c file_name) := by
  constructor
  · intro hargs hhelp
    obtain ⟨hs, ht⟩ := run_eq w c hargs hhelp hsetup
    have h := sketchAndWrite_overrides w c (w.sketchParameterSetup c).2
      (collectFiles w c.list.active c.arguments []) 1
      (addSuffix (choosePrefix c) (modeSuffix w (w.sketchParameterSetup c).2))
    unfold OverridesFirstOnly at h ⊢
    rw [hs, ht, renameCalls_append, recommentCalls_append]
    have e1 : renameCalls (if c.list.active then c.arguments.map Event.splitFile else []) = [] := by
      split_ifs
      · exact renameCalls_map_splitFile _
      · rfl
    have e2 : recommentCalls (if c.list.active then c.arguments.map Event.splitFile else []) =
        [] := by
      split_ifs
      · exact recommentCalls_map_splitFile _
      · rfl
    rw [e1, e2, List.nil_append, List.nil_append]
    exact h
  · rw [runFile_eq w c file_name hsetup]
    exact sketchAndWrite_overrides _ _ _ _ _ _

/-- Witness for C5: `-I first` on two input files: the rename is applied to
index 0 only, and the references from index 1 on are as built. -/
theorem override_first_reference_only_witness :
    renameCalls (run longWorld withId).trace = [(0, "first")] ∧
    (∀ i : Nat, 1 ≤ i →
      (run longWorld withId).sketch.references[i]? =
        (buildSketch longWorld (longWorld.sketchParameterSetup withId).2
          (collectFiles longWorld withId.list.active withId.arguments []) 1).references[i]?) ∧
    OverridesFirstOnly withId
      (buildSketch longWorld (longWorld.sketchParameterSetup withId).2 ["a.fa"] 1)
      (runFile longWorld withId "a.fa") :=
  ⟨((override_first_reference_only longWorld withId "a.fa" (by decide)).1
      (by decide) (by decide)).1,
    ((override_first_reference_only longWorld withId "a.fa" (by decide)).1
      (by decide) (by decide)).2.2.2.1,
    (override_first_reference_only longWorld withId "a.fa" (by decide)).2⟩

/-- C6: the p-value equals 1 when the shared count is 0: for every
`lengthRef`, `lengthQuery`, `kmerSpace` and `sketchSize`,
`pValue(0, lengthRef, lengthQuery, kmerSpace, sketchSize)` is exactly 1. -/
theorem pValue_zero_shared (effectiveJointLength : Nat → Nat → ℚ) (lengthRef lengthQuery : Nat)
    (kmerSpace : ℚ) (sketchSize : Nat) :
    pValue effectiveJointLength 0 lengthRef lengthQuery kmerSpace sketchSize = 1 := by
  unfold pValue
  simp only [Nat.sub_zero, Nat.zero_add]
  exact binomial_total _ _

/-- C7: comparing a reference with itself. For every reference `A` with at
least one hash and every configured sketch size above zero, `compareSketches`
on `(A, A)` with `maxDistance = 1` and `maxPValue = 1` gives distance 0 and
`numer` (the shared count) equal to `denom`, which is the usable sketch size
`min(|A|, sketchSize)`. The logarithm enters only through `ln 1 = 0`. -/
theorem compare_with_self (ln : ℚ → ℚ) (effectiveJointLength : Nat → Nat → ℚ)
    (A : Reference) (sketchSize kmerSize : Nat) (kmerSpace : ℚ)
    (hln : ln 1 = 0) (hA : A.hashesSorted ≠ []) (hsize : 0 < sketchSize) :
    (compareSketches ln effectiveJointLength A A sketchSize kmerSize kmerSpace 1 1).distance = 0 ∧
    (compareSketches ln effectiveJointLength A A sketchSize kmerSize kmerSpace 1 1).numer =
      (compareSketches ln effectiveJointLength A A sketchSize kmerSize kmerSpace 1 1).denom ∧
    (compareSketches ln effectiveJointLength A A sketchSize kmerSize kmerSpace 1 1).denom =
      min A.hashesSorted.length sketchSize := by
  have hlen : 0 < A.hashesSorted.length := List.length_pos.mpr hA
  have hs : 0 < min A.hashesSorted.length sketchSize := lt_min hlen hsize
  have hshared : sharedCount (A.hashesSorted.take (min A.hashesSorted.length sketchSize))
      (A.hashesSorted.take (min A.hashesSorted.length sketchSize)) =
      min A.hashesSorted.length sketchSize := by
    rw [sharedCount_self, List.length_take]
    omega
  have hq : ((min A.hashesSorted.length sketchSize : Nat) : ℚ) ≠ 0 := by
    exact_mod_cast hs.ne'
  simp only [compareSketches, min_self, hshared]
  refine ⟨?_, trivial, trivial⟩
  unfold mashDistance
  rw [div_self hq]
  norm_num [hln]

/-- Witness for C7: a reference with hashes `1, 3, 5`, sketch size 2, `k = 21`. -/
theorem compare_with_self_witness :
    (compareSketches (fun x => x - 1) (fun a b => (a : ℚ) + (b : ℚ)) ⟨"a", "", 10, [1, 3, 5]⟩
      ⟨"a", "", 10, [1, 3, 5]⟩ 2 21 16 1 1).distance = 0 ∧
    (compareSketches (fun x => x - 1) (fun a b => (a : ℚ) + (b : ℚ)) ⟨"a", "", 10, [1, 3, 5]⟩
      ⟨"a", "", 10, [1, 3, 5]⟩ 2 21 16 1 1).numer =
      (compareSketches (fun x => x - 1) (fun a b => (a : ℚ) + (b : ℚ)) ⟨"a", "", 10, [1, 3, 5]⟩
        ⟨"a", "", 10, [1, 3, 5]⟩ 2 21 16 1 1).denom ∧
    (compareSketches (fun x => x - 1) (fun a b => (a : ℚ) + (b : ℚ)) ⟨"a", "", 10, [1, 3, 5]⟩
      ⟨"a", "", 10, [1, 3, 5]⟩ 2 21 16 1 1).denom =
      min (Reference.mk "a" "" 10 [1, 3, 5]).hashesSorted.length 2 :=
  compare_with_self (fun x => x - 1) (fun a b => (a : ℚ) + (b : ℚ)) ⟨"a", "", 10, [1, 3, 5]⟩
    2 21 16 (by norm_num) (by decide) (by decide)

/-- C8: in exact rational arithmetic, for a warning threshold `w < 1`, a k-mer
space `S > 0` and a reference length `L > 0`, the length test of `run`,
`L > (w * S) / (1 - w)`, holds if and only if `1 / (1 + S / L) > w`, that is,
the chance that a random k-mer occurs in the reference exceeds `w`. (The lower
bound `0 ≤ w` of the warning threshold is not needed for the equivalence.) -/
theorem length_test_iff_random_chance (w S : ℚ) (L : Nat)
    (hw1 : w < 1) (hS : 0 < S) (hL : 0 < L) :
    lengthExceeds exactArith L (lengthThreshold exactArith (Dbl.fin w) (Dbl.fin S)) = true ↔
      w < 1 / (1 + S / (L : ℚ)) := by
  have hLq : (0 : ℚ) < (L : ℚ) := by exact_mod_cast hL
  have h1w : (0 : ℚ) < 1 - w := by linarith
  have hden : (0 : ℚ) < 1 + S / (L : ℚ) := by positivity
  rw [lengthThreshold_exact_of_lt_one w S hw1]
  simp only [lengthExceeds, exactArith, Dbl.lt, decide_eq_true_iff]
  rw [div_lt_iff₀ h1w, lt_div_iff₀ hden]
  have key : w * (1 + S / (L : ℚ)) < 1 ↔ w * ((L : ℚ) + S) < (L : ℚ) := by
    have : w * (1 + S / (L : ℚ)) = w * ((L : ℚ) + S) / (L : ℚ) := by
      field_simp
    rw [this, div_lt_iff₀ hLq, one_mul]
  rw [key]
  constructor <;> intro h <;> nlinarith

/-- Witness for C8: `w = 1/100`, `S = 16`, `L = 1000`. -/
theorem length_test_iff_random_chance_witness :
    lengthExceeds exactArith 1000
        (lengthThreshold exactArith (Dbl.fin (1 / 100)) (Dbl.fin 16)) = true ↔
      (1 / 100 : ℚ) < 1 / (1 + 16 / ((1000 : Nat) : ℚ)) :=
  length_test_iff_random_chance (1 / 100) 16 1000 (by norm_num) (by norm_num) (by norm_num)

/-- C9: on every run that gets past parameter setup (arguments `a :: rest`,
help inactive), exactly one name is written. With `P` the `-o` argument when it
is not empty and otherwise the first argument `a`, or `stdin` when `a` is `-`,
and `S` the constant `suffixSketchWindowed` in windowed mode and the constant
`suffixSketch` otherwise: the name ends with `S`; it is `P` itself when `P`
already ends with `S` and `P` followed by `S` otherwise; and normalising it
again returns it unchanged (the suffix is not appended a second time). -/
theorem output_name_suffix_idempotent (w : World) (c : Command) (a : String)
    (rest : List String) (hargs : c.arguments = a :: rest) (hhelp : c.help.active = false)
    (hsetup : (w.sketchParameterSetup c).1 = 0) :
    ∃ P S name : String,
      P = (if c.prefixOpt.argument ≠ "" then c.prefixOpt.argument
        else if a = "-" then "stdin" else a) ∧
      S = (if (w.sketchParameterSetup c).2.windowed = true then w.suffixSketchWindowed
        else w.suffixSketch) ∧
      writtenFiles (run w c).trace = [name] ∧
      S.data <:+ name.data ∧
      (S.data <:+ P.data → name = P) ∧
      (¬ S.data <:+ P.data → name = P ++ S) ∧
      addSuffix name S = name := by
  have hne : c.arguments ≠ [] := by rw [hargs]; exact List.cons_ne_nil _ _
  have hS : modeSuffix w (w.sketchParameterSetup c).2 =
      (if (w.sketchParameterSetup c).2.windowed = true then w.suffixSketchWindowed
        else w.suffixSketch) := rfl
  have hw := (run_written w c hne hhelp hsetup).2
  rw [choosePrefix_cons c a rest hargs, hS] at hw
  refine ⟨_, _, _, rfl, rfl, hw, ?_, ?_, ?_, ?_⟩
  · exact (hasSuffix_iff _ _).mp (hasSuffix_addSuffix _ _)
  · intro h
    exact addSuffix_of_hasSuffix _ _ ((hasSuffix_iff _ _).mpr h)
  · intro h
    exact addSuffix_of_not_hasSuffix _ _ (fun hs => h ((hasSuffix_iff _ _).mp hs))
  · exact addSuffix_of_hasSuffix _ _ (hasSuffix_addSuffix _ _)

/-- Witness for C9: `-o out.msh` with input `genome.fa`, outside windowed mode
with suffix `.msh`: the prefix already ends with the suffix and the sketch is
written to `out.msh`. -/
theorem output_name_suffix_idempotent_witness :
    writtenFiles (run longWorld withOutput).trace = ["out.msh"] := by
  obtain ⟨P, S, name, hP, hS, hw, _, hkeep, _, _⟩ :=
    output_name_suffix_idempotent longWorld withOutput "genome.fa" [] rfl rfl rfl
  have hP2 : P = "out.msh" := by rw [hP]; decide
  have hS2 : S = ".msh" := by rw [hS]; decide
  have hsuf : S.data <:+ P.data := by
    rw [hP2, hS2]
    exact (hasSuffix_iff _ _).mp (by decide)
  rw [hw, hkeep hsuf, hP2]

end Mash
